import Mathlib

/-!
A shallow embedding of the core of the YADA nutrition tracker
(`src/main.rs`): the food catalog with its composite-resolution engine
(`FoodDatabase`) and the daily consumption log with its command-based undo
stack (`DailyLog`), together with theorems about their behaviour.

Modelling conventions:

* `HashMap<FoodId, Food>` (the `foods` field of `FoodDatabase`) is modelled
  as a `List Food`; lookup by key is `List.find?` on the food's `id` field
  (the map always stores a food under its own `id`: `add_food` inserts with
  key `food.id.clone()`).  The list order plays the role of the hash map's
  iteration order, which lets order-(in)dependence be stated explicitly.
* `HashMap<String, Vec<FoodEntry>>` (the `entries` field of `DailyLog`) is
  modelled as a total function `String → List FoodEntry` defaulting to `[]`.
  The source treats an absent key and an empty vector identically in every
  operation: `delete_food` returns `false` both when `get_mut` is `None` and
  when the index is out of range of an empty vector; `undo` of an `AddFood`
  command returns `false` both when `get_mut` is `None` and when the vector
  `is_empty`; `undo` of a `DeleteFood` command uses `or_insert_with(Vec::new)`
  before pushing; `get_entries_for_date` returns an empty vector for an
  absent key; `calculate_calories_for_date` contributes `0` for an absent
  key.
* Rust `u32` values are modelled as `Nat`.  The `...Checked` functions
  additionally model the overflow checks that a debug-profile Rust build
  performs on `u32` `+` and `*`: a `none` result marks an arithmetic
  overflow, which aborts (panics) the corresponding Rust computation.
* `String::to_lowercase` is modelled character-wise with `Char.toLower`
  (the keywords of interest are ASCII), and `str::contains` as substring
  containment on the character data.
* `FoodEntry::new` captures a wall-clock timestamp; the embedding takes the
  timestamp as an explicit parameter and quantifies over it.
-/

/-- Embeds `struct Food` of `src/main.rs`: id, display name, search
keywords, calories per serving, composite flag, and the
`(component id, servings)` pairs of a composite food. -/
structure Food where
  id : String
  name : String
  keywords : List String
  calories_per_serving : Nat
  is_composite : Bool
  components : List (String × Nat)
deriving DecidableEq

/-- Character-wise lowercasing, embedding `String::to_lowercase` for the
ASCII keywords the program uses. -/
def lowerString (s : String) : String :=
  String.mk (s.data.map Char.toLower)

/-- `startsWithChars needle hay` is true iff `needle` is an initial segment
of `hay` (helper for the substring test of `str::contains`). -/
def startsWithChars : List Char → List Char → Bool
  | [], _ => true
  | _ :: _, [] => false
  | c :: cs, d :: ds => c == d && startsWithChars cs ds

/-- `containsChars needle hay` is true iff `needle` occurs as a contiguous
substring of `hay` (helper for `str::contains`). -/
def containsChars (needle : List Char) : List Char → Bool
  | [] => startsWithChars needle []
  | d :: ds => startsWithChars needle (d :: ds) || containsChars needle ds

/-- Embeds Rust `hay.contains(&needle)` on strings: substring containment. -/
def containsSub (hay needle : String) : Bool :=
  containsChars needle.data hay.data

/-- Embeds `FoodDatabase::get_food`: exact-ID lookup in the catalog. -/
def get_food (db : List Food) (fid : String) : Option Food :=
  db.find? (fun f => f.id == fid)

/-- Embeds `Food::matches_keywords` (src/main.rs lines 278-296): an empty
query matches everything; otherwise each query keyword is lowercased and
tested as a substring of any lowercased stored keyword, combined with AND
(`match_all = true`) or OR (`match_all = false`). -/
def Food.matches_keywords (f : Food) (search_keywords : List String) (match_all : Bool) : Bool :=
  if search_keywords.isEmpty then
    true
  else
    let food_keywords : List String := f.keywords.map lowerString
    if match_all then
      search_keywords.all (fun k => food_keywords.any (fun fw => containsSub fw (lowerString k)))
    else
      search_keywords.any (fun k => food_keywords.any (fun fw => containsSub fw (lowerString k)))

/-- Embeds `FoodDatabase::get_foods_by_keywords`: filter the catalog by
`Food::matches_keywords`. -/
def get_foods_by_keywords (db : List Food) (keywords : List String) (match_all : Bool) : List Food :=
  db.filter (fun f => f.matches_keywords keywords match_all)

/-- Embeds the inner accumulation loop of
`FoodDatabase::calculate_composite_calories` (and of
`Food::calculate_calories`): sum `component.calories_per_serving * servings`
over the component list, a component id that is not found contributing
nothing. -/
def compTotal (db : List Food) (comps : List (String × Nat)) : Nat :=
  comps.foldl (fun total c =>
    match get_food db c.1 with
    | some component => total + component.calories_per_serving * c.2
    | none => total) 0

/-- The per-food effect of `FoodDatabase::calculate_composite_calories`:
a composite food's `calories_per_serving` is replaced by the total computed
from the pre-call catalog `db`; a basic food is left untouched. -/
def updateFood (db : List Food) (f : Food) : Food :=
  if f.is_composite then
    { f with calories_per_serving := compTotal db f.components }
  else
    f

/-- Embeds `FoodDatabase::calculate_composite_calories` (src/main.rs lines
401-423).  The source first collects `(id, total)` pairs for every composite
food, reading only the pre-call map, and then writes each collected value
back under its id.  Since the hash map stores every food under its own
unique `id`, this two-phase update is exactly the pointwise update below,
with `db` on the right of `updateFood` bound to the pre-call catalog. -/
def calculate_composite_calories (db : List Food) : List Food :=
  db.map (updateFood db)

/-- Embeds `struct FoodEntry`: one line-item of consumption. -/
structure FoodEntry where
  food_id : String
  servings : Nat
  timestamp : Nat
deriving DecidableEq

/-- Embeds `enum CommandType`: one reversible ledger mutation, recording the
date it applied to and the entry involved. -/
inductive CommandType where
  | AddFood : String → FoodEntry → CommandType
  | DeleteFood : String → FoodEntry → CommandType
deriving DecidableEq

/-- Embeds `struct DailyLog`: per-date entry sequences plus the single
global LIFO undo stack (head of the list = top of the stack = most recently
pushed command). -/
structure DailyLog where
  entries : String → List FoodEntry
  undo_stack : List CommandType

/-- Embeds `DailyLog::add_food`: append a fresh entry to the date's sequence
and push an `AddFood` command.  The timestamp captured from the system clock
in the source is passed in as a parameter. -/
def DailyLog.add_food (log : DailyLog) (date food_id : String) (servings timestamp : Nat) : DailyLog :=
  let entry : FoodEntry := { food_id := food_id, servings := servings, timestamp := timestamp }
  { entries := fun d => if d = date then log.entries d ++ [entry] else log.entries d,
    undo_stack := CommandType.AddFood date entry :: log.undo_stack }

/-- Embeds `DailyLog::delete_food` (src/main.rs lines 523-536): if `index`
is in range of the date's current sequence, remove the entry at `index`,
push a `DeleteFood` command recording it, and return `true`; otherwise
return `false` and change nothing. -/
def DailyLog.delete_food (log : DailyLog) (date : String) (index : Nat) : Bool × DailyLog :=
  if h : index < (log.entries date).length then
    let entry := (log.entries date).get ⟨index, h⟩
    (true,
      { entries := fun d => if d = date then (log.entries d).eraseIdx index else log.entries d,
        undo_stack := CommandType.DeleteFood date entry :: log.undo_stack })
  else
    (false, log)

/-- Embeds `DailyLog::undo` (src/main.rs lines 538-559): pop the most recent
command (the pop happens unconditionally); undoing `AddFood date _` removes
the last entry of `date`'s sequence when it is non-empty and otherwise
returns `false` having changed no entries; undoing `DeleteFood date entry`
appends `entry` to the end of `date`'s sequence.  An empty stack yields
`false`. -/
def DailyLog.undo (log : DailyLog) : Bool × DailyLog :=
  match log.undo_stack with
  | [] => (false, log)
  | command :: rest =>
    match command with
    | CommandType.AddFood date _ =>
      if (log.entries date).isEmpty then
        (false, { entries := log.entries, undo_stack := rest })
      else
        (true,
          { entries := fun d => if d = date then (log.entries d).dropLast else log.entries d,
            undo_stack := rest })
    | CommandType.DeleteFood date entry =>
      (true,
        { entries := fun d => if d = date then log.entries d ++ [entry] else log.entries d,
          undo_stack := rest })

/-- Embeds `DailyLog::get_entries_for_date`. -/
def DailyLog.get_entries_for_date (log : DailyLog) (date : String) : List FoodEntry :=
  log.entries date

/-- Embeds `DailyLog::calculate_calories_for_date` (src/main.rs lines
569-581): sum `calories_per_serving * servings` over the date's entries,
an entry whose food id is not in the catalog contributing nothing. -/
def DailyLog.calculate_calories_for_date (log : DailyLog) (date : String) (db : List Food) : Nat :=
  (log.entries date).foldl (fun total entry =>
    match get_food db entry.food_id with
    | some food => total + food.calories_per_serving * entry.servings
    | none => total) 0

/-- The specified contribution of one component to a composite total:
`calories_per_serving * servings` when the component id resolves in the
catalog, `0` when it is absent. -/
def componentContribution (db : List Food) (c : String × Nat) : Nat :=
  match get_food db c.1 with
  | some f => f.calories_per_serving * c.2
  | none => 0

/-- The specified contribution of one log entry to a daily total:
`calories_per_serving * servings` when the entry's food id resolves in the
catalog, `0` when it is absent. -/
def entryContribution (db : List Food) (e : FoodEntry) : Nat :=
  match get_food db e.food_id with
  | some f => f.calories_per_serving * e.servings
  | none => 0

/-- A component id is either absent from the catalog or names a basic
(non-composite) food. -/
def basicOrMissing (db : List Food) (cid : String) : Bool :=
  match get_food db cid with
  | some g => !g.is_composite
  | none => true

/-- The specified match of a single query keyword against a food: the
lowercased query keyword is a substring of at least one lowercased stored
keyword. -/
def keywordMatch (f : Food) (k : String) : Prop :=
  ∃ fw ∈ f.keywords, containsSub (lowerString fw) (lowerString k) = true

/-- The specified search predicate: an empty query matches everything;
otherwise AND over the query keywords when `match_all` is true, OR when it
is false. -/
def specSearchMatch (f : Food) (kws : List String) (match_all : Bool) : Prop :=
  if kws = [] then True
  else if match_all then ∀ k ∈ kws, keywordMatch f k
  else ∃ k ∈ kws, keywordMatch f k

/-- `u32` addition with the overflow check a debug-profile Rust build
performs; `none` marks a panic. -/
def checkedAdd (a b : Nat) : Option Nat :=
  if a + b < 2 ^ 32 then some (a + b) else none

/-- `u32` multiplication with the overflow check a debug-profile Rust build
performs; `none` marks a panic. -/
def checkedMul (a b : Nat) : Option Nat :=
  if a * b < 2 ^ 32 then some (a * b) else none

/-- One step of the component accumulation loop of
`calculate_composite_calories`, with the `u32` overflow checks explicit. -/
def compCheckedStep (db : List Food) (acc : Option Nat) (c : String × Nat) : Option Nat :=
  match acc with
  | none => none
  | some total =>
    match get_food db c.1 with
    | some component =>
      match checkedMul component.calories_per_serving c.2 with
      | some p => checkedAdd total p
      | none => none
    | none => some total

/-- The component accumulation loop of `calculate_composite_calories` with
the `u32` overflow checks explicit; `none` marks a panic. -/
def compTotalChecked (db : List Food) (comps : List (String × Nat)) : Option Nat :=
  comps.foldl (compCheckedStep db) (some 0)

/-- One step of the entry accumulation loop of
`calculate_calories_for_date`, with the `u32` overflow checks explicit. -/
def entryCheckedStep (db : List Food) (acc : Option Nat) (e : FoodEntry) : Option Nat :=
  match acc with
  | none => none
  | some total =>
    match get_food db e.food_id with
    | some food =>
      match checkedMul food.calories_per_serving e.servings with
      | some p => checkedAdd total p
      | none => none
    | none => some total

/-- `DailyLog::calculate_calories_for_date` with the `u32` overflow checks
explicit; `none` marks a panic. -/
def calculate_calories_for_date_checked (log : DailyLog) (date : String) (db : List Food) : Option Nat :=
  (log.entries date).foldl (entryCheckedStep db) (some 0)

/-- Traverse a list with a fallible function, failing as soon as one
element fails (the loop of `calculate_composite_calories` aborts at the
first overflow). -/
def mapOptionList (g : α → Option β) : List α → Option (List β)
  | [] => some []
  | x :: xs =>
    match g x, mapOptionList g xs with
    | some y, some ys => some (y :: ys)
    | _, _ => none

/-- `FoodDatabase::calculate_composite_calories` with the `u32` overflow
checks explicit; `none` marks a panic during resolution. -/
def calculate_composite_calories_checked (db : List Food) : Option (List Food) :=
  mapOptionList (fun f =>
    if f.is_composite then
      match compTotalChecked db f.components with
      | some total => some { f with calories_per_serving := total }
      | none => none
    else
      some f) db

/-! ## Helper lemmas -/

theorem updateFood_id (db : List Food) (f : Food) : (updateFood db f).id = f.id := by
  unfold updateFood
  split <;> rfl

theorem get_food_resolve (db : List Food) (fid : String) :
    get_food (calculate_composite_calories db) fid = (get_food db fid).map (updateFood db) := by
  unfold calculate_composite_calories get_food
  have hpred : ((fun f : Food => f.id == fid) ∘ updateFood db) = fun f : Food => f.id == fid := by
    funext f
    simp [Function.comp, updateFood_id]
  rw [List.find?_map, hpred]

theorem get_food_some (db : List Food) (fid : String) (f : Food)
    (h : get_food db fid = some f) : f ∈ db ∧ f.id = fid := by
  unfold get_food at h
  refine ⟨List.mem_of_find?_eq_some h, ?_⟩
  have hp := List.find?_some h
  simpa using hp

theorem get_food_none (db : List Food) (fid : String) :
    get_food db fid = none ↔ ∀ f ∈ db, f.id ≠ fid := by
  unfold get_food
  rw [List.find?_eq_none]
  simp

theorem id_unique (db : List Food) (hn : (db.map Food.id).Nodup) :
    ∀ f g, f ∈ db → g ∈ db → f.id = g.id → f = g := by
  induction db with
  | nil => intro f g hf _ _; cases hf
  | cons a l ih =>
    rw [List.map_cons, List.nodup_cons] at hn
    intro f g hf hg hid
    rcases List.mem_cons.mp hf with hfa | hfl <;>
      rcases List.mem_cons.mp hg with hga | hgl
    · rw [hfa, hga]
    · exfalso
      apply hn.1
      rw [hfa] at hid
      rw [hid]
      exact List.mem_map_of_mem Food.id hgl
    · exfalso
      apply hn.1
      rw [hga] at hid
      rw [← hid]
      exact List.mem_map_of_mem Food.id hfl
    · exact ih hn.2 f g hfl hgl hid

theorem get_food_perm (db1 db2 : List Food) (hp : db1.Perm db2)
    (hn : (db1.map Food.id).Nodup) (fid : String) :
    get_food db1 fid = get_food db2 fid := by
  cases h1 : get_food db1 fid with
  | none =>
    have hall := (get_food_none db1 fid).mp h1
    symm
    rw [get_food_none]
    intro f hf
    exact hall f (hp.mem_iff.mpr hf)
  | some f =>
    obtain ⟨hmem, hid⟩ := get_food_some db1 fid f h1
    cases h2 : get_food db2 fid with
    | none =>
      exact absurd hid ((get_food_none db2 fid).mp h2 f (hp.mem_iff.mp hmem))
    | some g =>
      obtain ⟨hmem2, hid2⟩ := get_food_some db2 fid g h2
      have hg1 : g ∈ db1 := hp.mem_iff.mpr hmem2
      rw [id_unique db1 hn f g hmem hg1 (hid.trans hid2.symm)]

theorem compTotal_ext (db1 db2 : List Food)
    (h : ∀ fid, get_food db1 fid = get_food db2 fid) (comps : List (String × Nat)) :
    compTotal db1 comps = compTotal db2 comps := by
  unfold compTotal
  congr 1
  funext total c
  rw [h c.1]

theorem foldl_add_sum (g : α → Nat) (l : List α) :
    ∀ a : Nat, l.foldl (fun acc x => acc + g x) a = a + (l.map g).sum := by
  induction l with
  | nil => intro a; simp
  | cons x xs ih =>
    intro a
    rw [List.foldl_cons, ih, List.map_cons, List.sum_cons, Nat.add_assoc]

theorem compTotal_eq_sum (db : List Food) (comps : List (String × Nat)) :
    compTotal db comps = (comps.map (componentContribution db)).sum := by
  unfold compTotal
  have hstep : (fun (total : Nat) (c : String × Nat) =>
      match get_food db c.1 with
      | some component => total + component.calories_per_serving * c.2
      | none => total) = fun total c => total + componentContribution db c := by
    funext total c
    unfold componentContribution
    cases get_food db c.1 <;> simp
  rw [hstep, foldl_add_sum]
  simp

theorem calories_for_date_eq_sum (log : DailyLog) (date : String) (db : List Food) :
    DailyLog.calculate_calories_for_date log date db
      = ((log.entries date).map (entryContribution db)).sum := by
  unfold DailyLog.calculate_calories_for_date
  have hstep : (fun (total : Nat) (entry : FoodEntry) =>
      match get_food db entry.food_id with
      | some food => total + food.calories_per_serving * entry.servings
      | none => total) = fun total e => total + entryContribution db e := by
    funext total e
    unfold entryContribution
    cases get_food db e.food_id <;> simp
  rw [hstep, foldl_add_sum]
  simp

theorem compTotalChecked_go (db : List Food) (comps : List (String × Nat)) :
    ∀ a : Nat, a + (comps.map (componentContribution db)).sum < 2 ^ 32 →
      comps.foldl (compCheckedStep db) (some a)
        = some (a + (comps.map (componentContribution db)).sum) := by
  induction comps with
  | nil => intro a _; simp
  | cons c cs ih =>
    intro a h
    rw [List.map_cons, List.sum_cons] at h
    rw [List.foldl_cons]
    cases hg : get_food db c.1 with
    | none =>
      have hc : componentContribution db c = 0 := by
        unfold componentContribution
        rw [hg]
      have hstep : compCheckedStep db (some a) c = some a := by
        unfold compCheckedStep
        rw [hg]
      rw [hstep, ih a (by rw [hc] at h; omega)]
      rw [List.map_cons, List.sum_cons, hc, Nat.zero_add]
    | some component =>
      have hc : componentContribution db c = component.calories_per_serving * c.2 := by
        unfold componentContribution
        rw [hg]
      rw [hc] at h
      have hp : component.calories_per_serving * c.2 < 2 ^ 32 := by omega
      have hap : a + component.calories_per_serving * c.2 < 2 ^ 32 := by omega
      have hstep : compCheckedStep db (some a) c
          = some (a + component.calories_per_serving * c.2) := by
        simp only [compCheckedStep, hg, checkedMul, checkedAdd, if_pos hp, if_pos hap]
      rw [hstep, ih (a + component.calories_per_serving * c.2) (by omega)]
      rw [List.map_cons, List.sum_cons, hc, Nat.add_assoc]

theorem compTotalChecked_of_no_overflow (db : List Food) (comps : List (String × Nat))
    (h : compTotal db comps < 2 ^ 32) :
    compTotalChecked db comps = some (compTotal db comps) := by
  rw [compTotal_eq_sum] at h ⊢
  unfold compTotalChecked
  have hz := compTotalChecked_go db comps 0 (by omega)
  rw [Nat.zero_add] at hz
  exact hz

theorem entriesChecked_go (db : List Food) (es : List FoodEntry) :
    ∀ a : Nat, a + (es.map (entryContribution db)).sum < 2 ^ 32 →
      es.foldl (entryCheckedStep db) (some a)
        = some (a + (es.map (entryContribution db)).sum) := by
  induction es with
  | nil => intro a _; simp
  | cons e es ih =>
    intro a h
    rw [List.map_cons, List.sum_cons] at h
    rw [List.foldl_cons]
    cases hg : get_food db e.food_id with
    | none =>
      have hc : entryContribution db e = 0 := by
        unfold entryContribution
        rw [hg]
      have hstep : entryCheckedStep db (some a) e = some a := by
        unfold entryCheckedStep
        rw [hg]
      rw [hstep, ih a (by rw [hc] at h; omega)]
      rw [List.map_cons, List.sum_cons, hc, Nat.zero_add]
    | some food =>
      have hc : entryContribution db e = food.calories_per_serving * e.servings := by
        unfold entryContribution
        rw [hg]
      rw [hc] at h
      have hp : food.calories_per_serving * e.servings < 2 ^ 32 := by omega
      have hap : a + food.calories_per_serving * e.servings < 2 ^ 32 := by omega
      have hstep : entryCheckedStep db (some a) e
          = some (a + food.calories_per_serving * e.servings) := by
        simp only [entryCheckedStep, hg, checkedMul, checkedAdd, if_pos hp, if_pos hap]
      rw [hstep, ih (a + food.calories_per_serving * e.servings) (by omega)]
      rw [List.map_cons, List.sum_cons, hc, Nat.add_assoc]

theorem calories_checked_of_no_overflow (log : DailyLog) (date : String) (db : List Food)
    (h : DailyLog.calculate_calories_for_date log date db < 2 ^ 32) :
    calculate_calories_for_date_checked log date db
      = some (DailyLog.calculate_calories_for_date log date db) := by
  rw [calories_for_date_eq_sum] at h ⊢
  unfold calculate_calories_for_date_checked
  have hz := entriesChecked_go db (log.entries date) 0 (by omega)
  rw [Nat.zero_add] at hz
  exact hz

theorem mapOptionList_eq_map (g : α → Option β) (h : α → β) :
    ∀ l : List α, (∀ x ∈ l, g x = some (h x)) → mapOptionList g l = some (l.map h) := by
  intro l
  induction l with
  | nil => intro _; rfl
  | cons x xs ih =>
    intro hall
    unfold mapOptionList
    rw [hall x (List.mem_cons_self x xs), ih (fun y hy => hall y (List.mem_cons_of_mem x hy))]
    rfl

theorem resolve_checked_of_no_overflow (db : List Food)
    (h : ∀ f ∈ db, f.is_composite = true → compTotal db f.components < 2 ^ 32) :
    calculate_composite_calories_checked db = some (calculate_composite_calories db) := by
  unfold calculate_composite_calories_checked calculate_composite_calories
  apply mapOptionList_eq_map _ (updateFood db)
  intro f hf
  cases hcomp : f.is_composite with
  | false => simp [updateFood, hcomp]
  | true =>
    simp [updateFood, hcomp, compTotalChecked_of_no_overflow db f.components (h f hf hcomp)]

/-! ## Concrete foods, catalogs and logs used by the witnesses -/

/-- The `bread` basic food of the spec example (80 calories). -/
def bread : Food :=
  { id := "bread", name := "Bread Slice", keywords := ["bread", "grain"],
    calories_per_serving := 80, is_composite := false, components := [] }

/-- The `pb` basic food of the spec example (190 calories). -/
def pb : Food :=
  { id := "pb", name := "Peanut Butter", keywords := ["peanut", "butter"],
    calories_per_serving := 190, is_composite := false, components := [] }

/-- The `sandwich` composite food of the spec example: 2 bread + 1 pb. -/
def sandwich : Food :=
  { id := "sandwich", name := "Peanut Butter Sandwich", keywords := ["sandwich", "peanut"],
    calories_per_serving := 0, is_composite := true,
    components := [("bread", 2), ("pb", 1)] }

/-- The spec-example catalog. -/
def sandwichDb : List Food := [bread, pb, sandwich]

/-- The spec-example catalog in a different iteration order. -/
def sandwichDb2 : List Food := [pb, sandwich, bread]

/-- Basic food `c` of the composite-of-composite chain (100 calories). -/
def cBasic : Food :=
  { id := "c", name := "c food", keywords := [], calories_per_serving := 100,
    is_composite := false, components := [] }

/-- Freshly created composite `b` = 2 servings of `c` (stored value 0). -/
def bChain : Food :=
  { id := "b", name := "b food", keywords := [], calories_per_serving := 0,
    is_composite := true, components := [("c", 2)] }

/-- Freshly created composite `a` = 3 servings of `b` (stored value 0). -/
def aChain : Food :=
  { id := "a", name := "a food", keywords := [], calories_per_serving := 0,
    is_composite := true, components := [("b", 3)] }

/-- A catalog holding the freshly added chain a over b over c. -/
def chainDb : List Food := [cBasic, bChain, aChain]

/-- A basic food whose `u32` calorie value is `2 ^ 31`. -/
def bigBasic : Food :=
  { id := "big", name := "big", keywords := [], calories_per_serving := 2147483648,
    is_composite := false, components := [] }

/-- A composite food of two servings of `bigBasic`: resolving it computes
`2 ^ 31 * 2`, which does not fit in a `u32`. -/
def bigComposite : Food :=
  { id := "dbl", name := "dbl", keywords := [], calories_per_serving := 0,
    is_composite := true, components := [("big", 2)] }

/-- A catalog on which composite resolution overflows `u32`. -/
def overflowDb : List Food := [bigBasic, bigComposite]

/-- A log entry: 1 serving of bread. -/
def entryBread : FoodEntry := { food_id := "bread", servings := 1, timestamp := 100 }

/-- A log entry: 2 servings of pb. -/
def entryPb : FoodEntry := { food_id := "pb", servings := 2, timestamp := 200 }

/-- A log entry for a food id (`milk`) absent from `sandwichDb`. -/
def entryMilk : FoodEntry := { food_id := "milk", servings := 1, timestamp := 300 }

/-- A ledger with entries on two dates whose undo stack interleaves
commands of the two dates; the top command is an `AddFood` for
`2024-01-01` pushed before a command for `2024-01-02`. -/
def twoDateLog : DailyLog :=
  { entries := fun d =>
      if d = "2024-01-01" then [entryBread, entryPb]
      else if d = "2024-01-02" then [entryMilk]
      else [],
    undo_stack :=
      [CommandType.AddFood "2024-01-01" entryPb,
       CommandType.AddFood "2024-01-02" entryMilk,
       CommandType.AddFood "2024-01-01" entryBread] }

/-- A ledger whose top command records the deletion of `entryBread` from
index 0 of `2024-01-01`, which now holds `[entryPb]`. -/
def deleteUndoLog : DailyLog :=
  { entries := fun d => if d = "2024-01-01" then [entryPb] else [],
    undo_stack := [CommandType.DeleteFood "2024-01-01" entryBread] }

/-- A ledger with an empty undo stack. -/
def emptyStackLog : DailyLog :=
  { entries := fun d => if d = "2024-01-01" then [entryBread] else [],
    undo_stack := [] }

/-- A ledger whose top command is an `AddFood` for a date whose entry
sequence is empty, while another date still has entries. -/
def staleAddLog : DailyLog :=
  { entries := fun d => if d = "2024-01-02" then [entryMilk] else [],
    undo_stack := [CommandType.AddFood "2024-01-01" entryBread,
                   CommandType.AddFood "2024-01-02" entryMilk] }

/-! ## Claim theorems -/

/-- **C1.** For every catalog and every composite food in it whose
components, where present in the catalog, are all basic foods, one
`calculate_composite_calories` call (`resolveAll()`) leaves the composite's
`calories_per_serving` equal to the sum over its components of the
component's `calories_per_serving` times the component's serving count, a
component id absent from the catalog contributing zero to that sum (see the
witness for the `sandwich = 2*bread + 1*pb = 350` instance). -/
theorem resolve_basic_components_sum (db : List Food) (fid : String) (f : Food)
    (hget : get_food db fid = some f)
    (hcomp : f.is_composite = true)
    (hbasic : ∀ c ∈ f.components, basicOrMissing db c.1 = true) :
    ∃ f2, get_food (calculate_composite_calories db) fid = some f2 ∧
      f2.calories_per_serving
        = (f.components.map (componentContribution (calculate_composite_calories db))).sum := by
  refine ⟨updateFood db f, ?_, ?_⟩
  · rw [get_food_resolve, hget]
    rfl
  · have h1 : (updateFood db f).calories_per_serving = compTotal db f.components := by
      unfold updateFood
      rw [hcomp]
      simp
    rw [h1, compTotal_eq_sum]
    congr 1
    apply List.map_congr_left
    intro c hc
    unfold componentContribution
    cases hg : get_food db c.1 with
    | none =>
      rw [get_food_resolve, hg]
      rfl
    | some g =>
      have hb := hbasic c hc
      unfold basicOrMissing at hb
      rw [hg] at hb
      have hgb : g.is_composite = false := by simpa using hb
      have hfix : updateFood db g = g := by
        unfold updateFood
        rw [hgb]
        simp
      rw [get_food_resolve, hg]
      simp [hfix]

/-- **C1 witness.** The spec example: with basic foods `bread` (80) and
`pb` (190) and composite `sandwich = 2*bread + 1*pb`, one resolution pass
gives `sandwich` 350 calories per serving. -/
theorem resolve_basic_components_sum_witness :
    ∃ f2, get_food (calculate_composite_calories sandwichDb) "sandwich" = some f2 ∧
      f2.calories_per_serving = 350 := by
  obtain ⟨f2, h1, h2⟩ := resolve_basic_components_sum sandwichDb "sandwich" sandwich
    (by decide) (by decide) (by decide)
  refine ⟨f2, h1, ?_⟩
  rw [h2]
  decide

/-- **C7.** `calculate_composite_calories` leaves every basic food of the
catalog entirely unchanged, and writes nothing but the
`calories_per_serving` field of composite foods: every post-call food agrees
with its pre-call version on `id`, `name`, `keywords`, `is_composite` and
`components`, and is identical to it when it is basic. -/
theorem resolve_preserves_basic (db : List Food) :
    (∀ fid f, get_food db fid = some f → f.is_composite = false →
      get_food (calculate_composite_calories db) fid = some f) ∧
    (∀ fid f2, get_food (calculate_composite_calories db) fid = some f2 →
      ∃ f, get_food db fid = some f ∧ f2.id = f.id ∧ f2.name = f.name ∧
        f2.keywords = f.keywords ∧ f2.is_composite = f.is_composite ∧
        f2.components = f.components ∧ (f.is_composite = false → f2 = f)) := by
  constructor
  · intro fid f hget hb
    rw [get_food_resolve, hget]
    have hfix : updateFood db f = f := by
      unfold updateFood
      rw [hb]
      simp
    simp [hfix]
  · intro fid f2 hget
    rw [get_food_resolve] at hget
    cases hg : get_food db fid with
    | none =>
      rw [hg] at hget
      cases hget
    | some f =>
      rw [hg] at hget
      have hf2 : f2 = updateFood db f := by
        simpa using hget.symm
      subst hf2
      refine ⟨f, rfl, ?_, ?_, ?_, ?_, ?_, ?_⟩ <;>
        (unfold updateFood; cases hc : f.is_composite <;> simp [hc])

/-- **C7 witness.** In the spec-example catalog, the basic food `bread` is
untouched by resolution. -/
theorem resolve_preserves_basic_witness :
    get_food (calculate_composite_calories sandwichDb) "bread" = some bread :=
  (resolve_preserves_basic sandwichDb).1 "bread" bread (by decide) (by decide)

/-- **C3.** For a chain `a` over `b` over `c` (`c` basic, `b` composite over
`c`, `a` composite over `b`), one `calculate_composite_calories` call leaves
`b` fully resolved (`c.calories * m`) while `a` is computed from `b`'s
pre-call stored value (`b.calories_pre * n` — for a freshly added batch that
stored value is 0, one generation stale), and a second call leaves `a` at
the fully resolved transitive value `c.calories * m * n`. -/
theorem chain_two_pass (db : List Food) (idA idB idC : String) (fA fB fC : Food) (n m : Nat)
    (hA : get_food db idA = some fA) (hAc : fA.is_composite = true)
    (hAcomp : fA.components = [(idB, n)])
    (hB : get_food db idB = some fB) (hBc : fB.is_composite = true)
    (hBcomp : fB.components = [(idC, m)])
    (hC : get_food db idC = some fC) (hCb : fC.is_composite = false) :
    (∃ fB1, get_food (calculate_composite_calories db) idB = some fB1 ∧
       fB1.calories_per_serving = fC.calories_per_serving * m) ∧
    (∃ fA1, get_food (calculate_composite_calories db) idA = some fA1 ∧
       fA1.calories_per_serving = fB.calories_per_serving * n) ∧
    (∃ fA2, get_food (calculate_composite_calories (calculate_composite_calories db)) idA
        = some fA2 ∧
       fA2.calories_per_serving = fC.calories_per_serving * m * n) := by
  have hB1 : get_food (calculate_composite_calories db) idB = some (updateFood db fB) := by
    rw [get_food_resolve, hB]
    rfl
  have hB1cal : (updateFood db fB).calories_per_serving = fC.calories_per_serving * m := by
    unfold updateFood
    rw [hBc]
    simp [compTotal, hBcomp, hC]
  have hA1 : get_food (calculate_composite_calories db) idA = some (updateFood db fA) := by
    rw [get_food_resolve, hA]
    rfl
  have hA1cal : (updateFood db fA).calories_per_serving = fB.calories_per_serving * n := by
    unfold updateFood
    rw [hAc]
    simp [compTotal, hAcomp, hB]
  have hA1c : (updateFood db fA).is_composite = true := by
    unfold updateFood
    rw [hAc]
    simp
  have hA1comp : (updateFood db fA).components = [(idB, n)] := by
    unfold updateFood
    rw [hAc]
    simp [hAcomp]
  have hA2 : get_food (calculate_composite_calories (calculate_composite_calories db)) idA
      = some (updateFood (calculate_composite_calories db) (updateFood db fA)) := by
    rw [get_food_resolve, hA1]
    rfl
  have hA2cal : (updateFood (calculate_composite_calories db)
      (updateFood db fA)).calories_per_serving = fC.calories_per_serving * m * n := by
    generalize hg1 : updateFood db fA = g1 at hA1c hA1comp
    have hone : compTotal (calculate_composite_calories db) [(idB, n)]
        = (updateFood db fB).calories_per_serving * n := by
      simp [compTotal, hB1]
    unfold updateFood
    rw [hA1c]
    simp [hA1comp, hone, hB1cal]
  exact ⟨⟨updateFood db fB, hB1, hB1cal⟩,
         ⟨updateFood db fA, hA1, hA1cal⟩,
         ⟨updateFood (calculate_composite_calories db) (updateFood db fA), hA2, hA2cal⟩⟩

/-- **C3 witness.** Freshly added chain `a = 3*b`, `b = 2*c`, `c = 100`:
after one pass `b` is 200 and `a` is still 0 (stale by one generation);
after a second pass `a` is 600. -/
theorem chain_two_pass_witness :
    (∃ fB1, get_food (calculate_composite_calories chainDb) "b" = some fB1 ∧
       fB1.calories_per_serving = 200) ∧
    (∃ fA1, get_food (calculate_composite_calories chainDb) "a" = some fA1 ∧
       fA1.calories_per_serving = 0) ∧
    (∃ fA2, get_food (calculate_composite_calories (calculate_composite_calories chainDb)) "a"
        = some fA2 ∧ fA2.calories_per_serving = 600) := by
  obtain ⟨⟨fB1, hb1, hb2⟩, ⟨fA1, ha1, ha2⟩, ⟨fA2, hc1, hc2⟩⟩ :=
    chain_two_pass chainDb "a" "b" "c" aChain bChain cBasic 3 2
      (by decide) (by decide) (by decide) (by decide) (by decide) (by decide)
      (by decide) (by decide)
  refine ⟨⟨fB1, hb1, ?_⟩, ⟨fA1, ha1, ?_⟩, ⟨fA2, hc1, ?_⟩⟩
  · rw [hb2]
    decide
  · rw [ha2]
    decide
  · rw [hc2]
    decide

/-- **C10.** `calculate_composite_calories` reads only the pre-call catalog
and updates pointwise, so the post-call id-to-food mapping does not depend
on the iteration order of the hash map: on two catalogs that are
permutations of each other (equal key sets, no duplicate ids), every lookup
agrees after resolution. -/
theorem resolve_order_independent (db1 db2 : List Food) (hp : db1.Perm db2)
    (hn : (db1.map Food.id).Nodup) (fid : String) :
    get_food (calculate_composite_calories db1) fid
      = get_food (calculate_composite_calories db2) fid := by
  have hgf : ∀ i, get_food db1 i = get_food db2 i :=
    fun i => get_food_perm db1 db2 hp hn i
  have hfun : updateFood db1 = updateFood db2 := by
    funext f
    unfold updateFood
    rw [compTotal_ext db1 db2 hgf f.components]
  rw [get_food_resolve, get_food_resolve, hgf fid, hfun]

/-- **C10 witness.** Two iteration orders of the spec-example catalog
resolve `sandwich` to the same food. -/
theorem resolve_order_independent_witness :
    sandwichDb.Perm sandwichDb2 ∧
    get_food (calculate_composite_calories sandwichDb) "sandwich"
      = get_food (calculate_composite_calories sandwichDb2) "sandwich" :=
  ⟨by decide, resolve_order_independent sandwichDb sandwichDb2 (by decide) (by decide) "sandwich"⟩

/-- **C2.** `undo` pops the most recent command from the single global LIFO
stack and applies its inverse keyed to the command's recorded date,
whatever commands for other dates were pushed in between: undoing an
`AddFood` removes the last entry of that recorded date's sequence and
leaves every other date untouched; undoing a `DeleteFood` appends the
recorded entry to the end of that date's sequence (not to its original
index) and leaves every other date untouched; `undo` returns `false` when
the stack is empty. -/
theorem undo_inverse (log : DailyLog) :
    (log.undo_stack = [] → DailyLog.undo log = (false, log)) ∧
    (∀ date e rest, log.undo_stack = CommandType.AddFood date e :: rest →
      (DailyLog.undo log).2.entries date = (log.entries date).dropLast ∧
      (∀ d, d ≠ date → (DailyLog.undo log).2.entries d = log.entries d) ∧
      (DailyLog.undo log).2.undo_stack = rest) ∧
    (∀ date e rest, log.undo_stack = CommandType.DeleteFood date e :: rest →
      (DailyLog.undo log).1 = true ∧
      (DailyLog.undo log).2.entries date = log.entries date ++ [e] ∧
      (∀ d, d ≠ date → (DailyLog.undo log).2.entries d = log.entries d) ∧
      (DailyLog.undo log).2.undo_stack = rest) := by
  refine ⟨?_, ?_, ?_⟩
  · intro h
    simp [DailyLog.undo, h]
  · intro date e rest h
    by_cases hemp : (log.entries date).isEmpty = true
    · have hnil : log.entries date = [] := List.isEmpty_iff.mp hemp
      refine ⟨?_, ?_, ?_⟩
      · simp [DailyLog.undo, h, hemp, hnil]
      · intro d hd
        simp [DailyLog.undo, h, hemp]
      · simp [DailyLog.undo, h, hemp]
    · refine ⟨?_, ?_, ?_⟩
      · simp [DailyLog.undo, h, hemp]
      · intro d hd
        simp [DailyLog.undo, h, hemp, hd]
      · simp [DailyLog.undo, h, hemp]
  · intro date e rest h
    refine ⟨?_, ?_, ?_, ?_⟩
    · simp [DailyLog.undo, h]
    · simp [DailyLog.undo, h]
    · intro d hd
      simp [DailyLog.undo, h, hd]
    · simp [DailyLog.undo, h]

/-- **C2 witness.** On a ledger whose stack interleaves commands of two
dates, undo of the top `AddFood` for `2024-01-01` removes that date's last
entry and leaves `2024-01-02` untouched; undo of a `DeleteFood` re-appends
the recorded entry at the end; undo on an empty stack returns `false`. -/
theorem undo_inverse_witness :
    (DailyLog.undo twoDateLog).2.entries "2024-01-01" = [entryBread] ∧
    (DailyLog.undo twoDateLog).2.entries "2024-01-02" = [entryMilk] ∧
    (DailyLog.undo twoDateLog).2.undo_stack
      = [CommandType.AddFood "2024-01-02" entryMilk,
         CommandType.AddFood "2024-01-01" entryBread] ∧
    (DailyLog.undo deleteUndoLog).1 = true ∧
    (DailyLog.undo deleteUndoLog).2.entries "2024-01-01" = [entryPb, entryBread] ∧
    DailyLog.undo emptyStackLog = (false, emptyStackLog) := by
  have h1 := (undo_inverse twoDateLog).2.1 "2024-01-01" entryPb
    [CommandType.AddFood "2024-01-02" entryMilk,
     CommandType.AddFood "2024-01-01" entryBread] rfl
  have h2 := (undo_inverse deleteUndoLog).2.2 "2024-01-01" entryBread [] rfl
  have h3 := (undo_inverse emptyStackLog).1 rfl
  refine ⟨?_, ?_, h1.2.2, h2.1, ?_, h3⟩
  · rw [h1.1]
    decide
  · rw [h1.2.1 "2024-01-02" (by decide)]
    decide
  · rw [h2.2.1]
    decide

/-- **C6.** `delete_food` with an out-of-range 0-based index (in particular
on a date with no entries) returns `false`, changes no date's entries and
pushes no command; with an in-range index it returns `true`, removes
exactly the entry at that index (the sequence becomes `take index ++ drop
(index+1)`), leaves every other date untouched, and pushes one `DeleteFood`
command recording the date and the removed entry. -/
theorem delete_food_semantics (log : DailyLog) (date : String) (index : Nat) :
    (¬ index < (log.entries date).length →
      DailyLog.delete_food log date index = (false, log)) ∧
    (∀ h : index < (log.entries date).length,
      (DailyLog.delete_food log date index).1 = true ∧
      (DailyLog.delete_food log date index).2.entries date
        = (log.entries date).take index ++ (log.entries date).drop (index + 1) ∧
      (∀ d, d ≠ date → (DailyLog.delete_food log date index).2.entries d = log.entries d) ∧
      (DailyLog.delete_food log date index).2.undo_stack
        = CommandType.DeleteFood date ((log.entries date).get ⟨index, h⟩)
            :: log.undo_stack) := by
  constructor
  · intro h
    unfold DailyLog.delete_food
    rw [dif_neg h]
  · intro h
    refine ⟨?_, ?_, ?_, ?_⟩
    · unfold DailyLog.delete_food
      rw [dif_pos h]
    · unfold DailyLog.delete_food
      rw [dif_pos h]
      simp [List.eraseIdx_eq_take_drop_succ]
    · intro d hd
      unfold DailyLog.delete_food
      rw [dif_pos h]
      simp [hd]
    · unfold DailyLog.delete_food
      rw [dif_pos h]

/-- **C6 witness.** On the two-date ledger, deleting index 5 of
`2024-01-01` is a no-op returning `false`; deleting index 0 removes
`entryBread`, returns `true`, leaves `2024-01-02` untouched and pushes the
matching `DeleteFood` command. -/
theorem delete_food_semantics_witness :
    DailyLog.delete_food twoDateLog "2024-01-01" 5 = (false, twoDateLog) ∧
    (DailyLog.delete_food twoDateLog "2024-01-01" 0).1 = true ∧
    (DailyLog.delete_food twoDateLog "2024-01-01" 0).2.entries "2024-01-01" = [entryPb] ∧
    (DailyLog.delete_food twoDateLog "2024-01-01" 0).2.entries "2024-01-02" = [entryMilk] ∧
    (DailyLog.delete_food twoDateLog "2024-01-01" 0).2.undo_stack
      = CommandType.DeleteFood "2024-01-01" entryBread :: twoDateLog.undo_stack := by
  have hout := (delete_food_semantics twoDateLog "2024-01-01" 5).1 (by decide)
  have hin := (delete_food_semantics twoDateLog "2024-01-01" 0).2 (by decide)
  refine ⟨hout, hin.1, ?_, ?_, ?_⟩
  · rw [hin.2.1]
    decide
  · rw [hin.2.2.1 "2024-01-02" (by decide)]
    decide
  · rw [hin.2.2.2]
    decide

/-- **C9.** When the top of the undo stack is an `AddFood` command whose
recorded date currently has no entries, `undo` pops and discards that
command, changes no date's entries, and returns `false` — so a `false`
return does not imply the stack was empty, and the popped command's inverse
is never applied. -/
theorem undo_added_empty_date (log : DailyLog) (date : String) (e : FoodEntry)
    (rest : List CommandType)
    (h : log.undo_stack = CommandType.AddFood date e :: rest)
    (hnil : log.entries date = []) :
    (DailyLog.undo log).1 = false ∧
    (∀ d, (DailyLog.undo log).2.entries d = log.entries d) ∧
    (DailyLog.undo log).2.undo_stack = rest := by
  have hemp : (log.entries date).isEmpty = true := by
    rw [hnil]
    rfl
  refine ⟨?_, fun d => ?_, ?_⟩ <;> simp [DailyLog.undo, h, hemp]

/-- **C9 witness.** On a ledger whose top command is an `AddFood` for the
now-empty date `2024-01-01` and whose stack is not empty, `undo` returns
`false`, leaves `2024-01-02` untouched, and discards the popped command. -/
theorem undo_added_empty_date_witness :
    staleAddLog.undo_stack ≠ [] ∧
    (DailyLog.undo staleAddLog).1 = false ∧
    (DailyLog.undo staleAddLog).2.entries "2024-01-02" = [entryMilk] ∧
    (DailyLog.undo staleAddLog).2.undo_stack
      = [CommandType.AddFood "2024-01-02" entryMilk] := by
  have h := undo_added_empty_date staleAddLog "2024-01-01" entryBread
    [CommandType.AddFood "2024-01-02" entryMilk] rfl (by decide)
  refine ⟨by decide, h.1, ?_, h.2.2⟩
  rw [h.2.1 "2024-01-02"]
  decide

theorem matches_keywords_iff (f : Food) (kws : List String) (match_all : Bool) :
    f.matches_keywords kws match_all = true ↔ specSearchMatch f kws match_all := by
  unfold Food.matches_keywords specSearchMatch
  cases kws with
  | nil => simp
  | cons k ks =>
    cases match_all with
    | true =>
      simp only [List.isEmpty_cons, Bool.false_eq_true, if_false, if_true,
        List.cons_ne_nil, List.all_eq_true, List.any_eq_true, List.mem_map]
      constructor
      · intro hall x hx
        obtain ⟨fw, ⟨orig, horig, hfw⟩, hsub⟩ := hall x hx
        exact ⟨orig, horig, by rw [hfw]; exact hsub⟩
      · intro hall x hx
        obtain ⟨orig, horig, hsub⟩ := hall x hx
        exact ⟨lowerString orig, ⟨orig, horig, rfl⟩, hsub⟩
    | false =>
      simp only [List.isEmpty_cons, Bool.false_eq_true, if_false, if_true,
        List.cons_ne_nil, List.all_eq_true, List.any_eq_true, List.mem_map]
      constructor
      · intro hany
        obtain ⟨x, hx, fw, ⟨orig, horig, hfw⟩, hsub⟩ := hany
        exact ⟨x, hx, orig, horig, by rw [hfw]; exact hsub⟩
      · intro hany
        obtain ⟨x, hx, orig, horig, hsub⟩ := hany
        exact ⟨x, hx, lowerString orig, ⟨orig, horig, rfl⟩, hsub⟩

/-- **C4.** `get_foods_by_keywords` returns exactly the foods satisfying
the specified predicate: a query keyword matches a food iff its lowercased
form is a substring of at least one lowercased stored keyword
(`keywordMatch`); with `match_all = true` every query keyword must match,
with `match_all = false` at least one must, and an empty query list matches
every food in the catalog (`specSearchMatch`). -/
theorem search_semantics (db : List Food) (kws : List String) (match_all : Bool) (f : Food) :
    f ∈ get_foods_by_keywords db kws match_all
      ↔ f ∈ db ∧ specSearchMatch f kws match_all := by
  unfold get_foods_by_keywords
  rw [List.mem_filter]
  exact and_congr_right (fun _ => matches_keywords_iff f kws match_all)

/-- **C5.** `calculate_calories_for_date` equals the sum, over the date's
entries, of the looked-up food's `calories_per_serving` times the entry's
servings, an entry whose food id is absent from the catalog contributing
zero (`entryContribution`) with no error; a date with no entries totals
zero. -/
theorem total_calories_sum (log : DailyLog) (date : String) (db : List Food) :
    DailyLog.calculate_calories_for_date log date db
      = ((log.entries date).map (entryContribution db)).sum ∧
    (log.entries date = [] → DailyLog.calculate_calories_for_date log date db = 0) := by
  refine ⟨calories_for_date_eq_sum log date db, fun h => ?_⟩
  rw [calories_for_date_eq_sum, h]
  rfl

/-- **C5 witness.** On the two-date ledger and the spec-example catalog:
`2024-01-01` totals 80*1 + 190*2 = 460; the `2024-01-02` entry names the
absent food `milk` and contributes zero; a date with no entries totals
zero. -/
theorem total_calories_sum_witness :
    DailyLog.calculate_calories_for_date twoDateLog "2024-01-01" sandwichDb = 460 ∧
    DailyLog.calculate_calories_for_date twoDateLog "2024-01-02" sandwichDb = 0 ∧
    DailyLog.calculate_calories_for_date twoDateLog "2099-12-31" sandwichDb = 0 := by
  have h1 := (total_calories_sum twoDateLog "2024-01-01" sandwichDb).1
  have h2 := (total_calories_sum twoDateLog "2024-01-02" sandwichDb).1
  have h3 := (total_calories_sum twoDateLog "2099-12-31" sandwichDb).2 (by decide)
  refine ⟨?_, ?_, h3⟩
  · rw [h1]
    decide
  · rw [h2]
    decide

/-- **C8 counterexample.** The claim that no core operation ever raises a
fatal error for any input state is false: resolving `overflowDb` — a
composite of 2 servings of a basic food worth `2 ^ 31` calories — computes
`2 ^ 31 * 2`, which does not fit in `u32`; in a debug-profile build (the
Cargo default) this `u32` multiplication panics, modelled here by the
overflow-checked resolution returning `none`. -/
theorem resolve_overflow_counterexample :
    calculate_composite_calories_checked overflowDb = none := by
  decide

/-- **C8 (amended).** Provided every calorie total computed stays below
`2 ^ 32` (so no `u32` product or partial sum overflows), the arithmetic of
component resolution, whole-catalog resolution and daily calorie totals
completes without a panic and yields the exact sums; the remaining failure
conditions of the core degrade to a no-op, a zero value, or a boolean
signal. -/
theorem core_ops_no_overflow (db : List Food) (comps : List (String × Nat))
    (log : DailyLog) (date : String) :
    (compTotal db comps < 2 ^ 32 →
      compTotalChecked db comps = some (compTotal db comps)) ∧
    (DailyLog.calculate_calories_for_date log date db < 2 ^ 32 →
      calculate_calories_for_date_checked log date db
        = some (DailyLog.calculate_calories_for_date log date db)) ∧
    ((∀ f ∈ db, f.is_composite = true → compTotal db f.components < 2 ^ 32) →
      calculate_composite_calories_checked db = some (calculate_composite_calories db)) :=
  ⟨compTotalChecked_of_no_overflow db comps,
   calories_checked_of_no_overflow log date db,
   resolve_checked_of_no_overflow db⟩

/-- **C8 witness.** On the spec-example catalog and the two-date ledger the
bounds hold and the checked computations return the unchecked values. -/
theorem core_ops_no_overflow_witness :
    compTotalChecked sandwichDb sandwich.components = some 350 ∧
    calculate_calories_for_date_checked twoDateLog "2024-01-01" sandwichDb = some 460 ∧
    calculate_composite_calories_checked sandwichDb
      = some (calculate_composite_calories sandwichDb) := by
  have h := core_ops_no_overflow sandwichDb sandwich.components twoDateLog "2024-01-01"
  refine ⟨?_, ?_, h.2.2 (by decide)⟩
  · rw [h.1 (by decide)]
    decide
  · rw [h.2.1 (by decide)]
    decide
